import Mathlib

/-!
Shallow embedding of `src/PivotRequester.js` from the `tad` repository.

The file models:
  * the row-augmentation function `mkDataView` (lines 18-58), which turns a
    raw `TableRep` window into a `PagedDataView` by adding the four synthetic
    fields `_id`, `_parentId`, `_isOpen`, `_isLeaf` to every row;
  * the reconciliation controller `PivotRequester` (lines 92-199):
    `requestData`, `onStateChange`, and the two asynchronous completion
    handlers (the `dreq.then` continuation at lines 133-143 and the
    `qreq.then` continuation at lines 162-179), embedded as pure state
    transformers over an explicit `World` (controller fields + shared app
    state + a trace of issued requests and state writes).

External collaborators that are not part of `src/` (the `paging` module, the
`PathTree.isOpen` test behind `viewParams.openPaths.isOpen`, and the
`LoadingTimer`) are modelled from the spec; each such definition is marked
`Modelled from the spec:` in its doc comment.

JavaScript peculiarities captured by the embedding:
  * object identity (`!==` on view params) is modelled by a `tag` field:
    two separately constructed, structurally-equal view-param objects carry
    distinct tags;
  * the value stored in `_parentId` can be a number, `null` (depth 0), or
    `undefined` (out-of-range read of the sparse `parentIdStack` array);
    this is the three-constructor type `PVal`;
  * in-place mutation of the row objects by `mkDataView` is modelled by a
    second, heap-passing version `mkDataViewH` in which rows live in an
    addressed store and the table holds references (indices) into it.
-/

/-- Value stored in the `_parentId` field of a row: a JS number, JS `null`
(written for rows at depth 0), or JS `undefined` (the result of reading an
index of the sparse `parentIdStack` array that was never assigned). -/
inductive PVal where
  | pnull : PVal
  | pundef : PVal
  | pid : Nat → PVal
deriving DecidableEq, Repr, Inhabited

/-- Column metadata passed to `Schema.extend` (the
`{type: ..., displayName: ...}` literals at lines 52-55). -/
structure ColMeta where
  type : String
  displayName : String
deriving DecidableEq, Repr, Inhabited

/-- The relevant part of a `reltab.Schema`: its ordered column list.
`extend` appends one column. -/
structure Schema where
  columns : List (String × ColMeta)
deriving DecidableEq, Repr, Inhabited

def Schema.extend (s : Schema) (cid : String) (md : ColMeta) : Schema :=
  ⟨s.columns ++ [(cid, md)]⟩

/-- A row record of a `reltab.TableRep`.  `depth` is the `_depth` field;
`pathFields.getD i none` is the `_path<i>` field (`none` = field absent);
`cells` are the remaining data columns (untouched by `mkDataView`);
`id`, `parentId`, `isOpen`, `isLeaf` are the synthetic fields `_id`,
`_parentId`, `_isOpen`, `_isLeaf`, absent (`none`) on a raw row and
assigned by `mkDataView`. -/
structure RowMap where
  depth : Nat
  pathFields : List (Option String)
  cells : List (String × String)
  id : Option Nat
  parentId : Option PVal
  isOpen : Option Bool
  isLeaf : Option Bool
deriving DecidableEq, Repr, Inhabited

/-- A raw `reltab.TableRep` window: a schema plus the ordered row records. -/
structure TableRep where
  schema : Schema
  rowData : List RowMap
deriving DecidableEq, Repr, Inhabited

/-- The output of `mkDataView` (constructor call at line 56). -/
structure PagedDataView where
  schema : Schema
  rowCount : Nat
  offset : Int
  rowData : List RowMap
deriving DecidableEq, Repr, Inhabited

/-- `ViewParams` (the View Definition).  `tag` models JavaScript object
identity: the app constructs a fresh instance (fresh tag) for every
configuration change, so Lean equality of `ViewParams` models the source's
reference equality `===`, and two structurally-equal but separately
constructed instances differ in `tag` alone. -/
structure ViewParams where
  tag : Nat
  vpivots : List String
  pivotLeafColumn : Option String
  showRoot : Bool
  sortKey : List (String × Bool)
  openPaths : List (List String)
deriving DecidableEq, Repr, Inhabited

/-- Modelled from the spec: `viewParams.openPaths.isOpen(path)` (the
`PathTree` membership test, whose code is outside `src/`): "its open flag is
true iff that path is a member of the View Definition's expanded-path set".
The expanded-path set is modelled as the list `openPaths`. -/
def isOpenPaths (openPaths : List (List String)) (path : List String) : Bool :=
  decide (path ∈ openPaths)

/-- `getPath` (lines 22-32): collect the truthy (present and non-empty)
`_path0 .. _path(depth-1)` fields of a row, in order. -/
def getPath (rowMap : RowMap) (depth : Nat) : List String :=
  (List.range depth).filterMap (fun i =>
    match rowMap.pathFields.getD i none with
    | some pathElem => if pathElem = "" then none else some pathElem
    | none => none)

/-- One iteration of the `mkDataView` loop body (lines 39-48) on row `i`:
set `_isOpen`, `_isLeaf`, `_id`, store `i` into `parentIdStack[depth]`, then
read `parentIdStack[depth - 1]` (or take `null` for depth 0) as
`_parentId`.  Returns the augmented row and the updated stack.  The sparse
JS array `parentIdStack` is modelled as a function `Nat → Option Nat`
(`none` = never-assigned index, read as `undefined`). -/
def stepRow (viewParams : ViewParams) (nPivots : Nat) (rowMap : RowMap)
    (i : Nat) (parentIdStack : Nat → Option Nat) :
    RowMap × (Nat → Option Nat) :=
  let path := getPath rowMap nPivots
  let depth := rowMap.depth
  let parentIdStack' : Nat → Option Nat :=
    fun d => if d = depth then some i else parentIdStack d
  let parentId : PVal :=
    if depth > 0 then
      match parentIdStack' (depth - 1) with
      | some p => PVal.pid p
      | none => PVal.pundef
    else PVal.pnull
  ({ rowMap with
      isOpen := some (isOpenPaths viewParams.openPaths path)
      isLeaf := some (decide (depth > nPivots))
      id := some i
      parentId := some parentId },
   parentIdStack')

/-- The `mkDataView` loop (lines 35-49) over a list of row values, starting
at row index `i` with stack `parentIdStack`. -/
def mkRows (viewParams : ViewParams) (nPivots : Nat) :
    List RowMap → Nat → (Nat → Option Nat) → List RowMap
  | [], _, _ => []
  | rowMap :: rest, i, parentIdStack =>
    let step := stepRow viewParams nPivots rowMap i parentIdStack
    step.1 :: mkRows viewParams nPivots rest (i + 1) step.2

/-- `mkDataView` (lines 18-58), value-level reading: augment every row of
the window and extend the schema with the four synthetic columns. -/
def mkDataView (viewParams : ViewParams) (rowCount : Nat) (offset : Int)
    (tableData : TableRep) : PagedDataView :=
  let nPivots := viewParams.vpivots.length
  let rowData :=
    mkRows viewParams nPivots tableData.rowData 0 (fun _ => none)
  let outSchema :=
    (((tableData.schema.extend "_id" ⟨"integer", "_id"⟩).extend
        "_parentId" ⟨"integer", "_parentId"⟩).extend
        "_isOpen" ⟨"integer", "_isOpen"⟩).extend
        "_isLeaf" ⟨"integer", "_isLeaf"⟩
  ⟨outSchema, rowCount, offset, rowData⟩

/-- A `TableRep` whose `rowData` array holds references (store indices) to
row objects, as a JS array of objects does. -/
structure TableRepH where
  schema : Schema
  rowData : List Nat
deriving DecidableEq, Repr, Inhabited

/-- A `PagedDataView` holding row references instead of row values. -/
structure PagedDataViewRef where
  schema : Schema
  rowCount : Nat
  offset : Int
  rowData : List Nat
deriving DecidableEq, Repr, Inhabited

/-- The `mkDataView` loop (lines 35-49), heap-passing reading: rows live in
an addressed store (`heap`, addresses are list indices); each iteration
reads the row object behind `ref`, mutates it in place (`List.set`), and
pushes the same reference onto the output array. -/
def mkRowsH (viewParams : ViewParams) (nPivots : Nat) :
    List Nat → Nat → (Nat → Option Nat) → List RowMap →
    List RowMap × List Nat
  | [], _, _, heap => (heap, [])
  | ref :: rest, i, parentIdStack, heap =>
    let rowMap := heap.getD ref default
    let step := stepRow viewParams nPivots rowMap i parentIdStack
    let heap' := heap.set ref step.1
    let res := mkRowsH viewParams nPivots rest (i + 1) step.2 heap'
    (res.1, ref :: res.2)

/-- `mkDataView` (lines 18-58), heap-passing reading; returns the updated
row store together with the data view of row references. -/
def mkDataViewH (viewParams : ViewParams) (rowCount : Nat) (offset : Int)
    (tableData : TableRepH) (heap : List RowMap) :
    List RowMap × PagedDataViewRef :=
  let nPivots := viewParams.vpivots.length
  let res := mkRowsH viewParams nPivots tableData.rowData 0 (fun _ => none) heap
  let outSchema :=
    (((tableData.schema.extend "_id" ⟨"integer", "_id"⟩).extend
        "_parentId" ⟨"integer", "_parentId"⟩).extend
        "_isOpen" ⟨"integer", "_isOpen"⟩).extend
        "_isLeaf" ⟨"integer", "_isLeaf"⟩
  (res.1, ⟨outSchema, rowCount, offset, res.2⟩)

/-- `QueryView` (the Query Handle): the compiled query (opaque here, an
identifier) plus its total row count. -/
structure QueryView where
  query : Nat
  rowCount : Nat
deriving DecidableEq, Repr, Inhabited

/-- Modelled from the spec: the `LoadingTimer` (its code is outside `src/`).
Spec section 4.3: `start`/`run` schedules the fire when idle and is a no-op
while already running; `stop` cancels any pending fire and resets to idle.
Only the running/idle bit is observable to the claims; the `onFire`
callback and the delay are ignored by the model. -/
structure LoadingTimer where
  running : Bool
deriving DecidableEq, Repr, Inhabited

def LoadingTimer.run (lt : LoadingTimer) (_delayMs : Nat) : LoadingTimer :=
  if lt.running then lt else ⟨true⟩

def LoadingTimer.stop (_lt : LoadingTimer) : LoadingTimer :=
  ⟨false⟩

/-- The `viewState` subtree of the shared app state: the fields read and
written by `PivotRequester`. -/
structure ViewState where
  viewParams : ViewParams
  viewportTop : Int
  viewportBottom : Int
  loadingTimer : LoadingTimer
  dataView : Option PagedDataView
  queryView : Option QueryView
deriving DecidableEq, Repr, Inhabited

/-- The shared `AppState`; `rtc`, `baseQuery`, `baseSchema` are opaque to
the controller and modelled as identifiers. -/
structure AppState where
  viewState : ViewState
  rtc : Nat
  baseQuery : Nat
  baseSchema : Nat
deriving DecidableEq, Repr, Inhabited

namespace Paging

/-- Modelled from the spec: `paging.fetchParams(top, bottom)` (the `paging`
module is outside `src/`).  Spec section 4.2: returns an `(offset, limit)`
window covering the viewport, typically with margin; here the margin is one
viewport height of read-behind and read-ahead, clipped at offset 0. -/
def fetchParams (top bottom : Int) : Int × Int :=
  let margin := bottom - top
  let offset := max (top - margin) 0
  (offset, (bottom + margin) - offset)

/-- Modelled from the spec: `paging.clampViewport(rowCount, top, bottom)`
(the `paging` module is outside `src/`).  Spec section 4.2: returns a
viewport fully inside `[0, rowCount)`, preserving the requested span where
possible. -/
def clampViewport (rowCount : Nat) (top bottom : Int) : Int × Int :=
  let span := max (bottom - top) 0
  let span' := min span (rowCount : Int)
  let top' := max 0 (min top ((rowCount : Int) - span'))
  (top', top' + span')

/-- Modelled from the spec: `paging.contains(offset, limit, top, bottom)`
(the `paging` module is outside `src/`).  Spec section 4.2: true iff
`[top, bottom)` is fully inside `[offset, offset + limit)`. -/
def contains (offset limit top bottom : Int) : Bool :=
  decide (offset ≤ top ∧ bottom ≤ offset + limit)

end Paging

/-- The value held in `pendingDataRequest`: either the promise of a fetch
issued by `requestData` (line 132), or the promise chained onto a compile
request in `onStateChange` (lines 161-162). -/
inductive DataReq where
  | fetch : QueryView → Int → Int → DataReq
  | chained : ViewParams → DataReq
deriving DecidableEq, Repr, Inhabited

/-- The instance fields of `PivotRequester` (lines 101-106).  A pending
promise is represented by the request it tracks: `pendingQueryRequest`
holds the view params the compile was issued for. -/
structure Controller where
  pendingViewParams : Option ViewParams
  pendingQueryRequest : Option ViewParams
  pendingDataRequest : Option DataReq
  currentQueryView : Option QueryView
  pendingOffset : Int
  pendingLimit : Int
deriving DecidableEq, Repr, Inhabited

/-- Observable actions of the controller, in program order: issuing a
compile request (`requestQueryView`, line 158), issuing a fetch request
(`requestDataView`, line 130), and writing the shared state
(`stateRef.setValue`, lines 141, 177, 183). -/
inductive Event where
  | issueCompile : ViewParams → Event
  | issueFetch : QueryView → Int → Int → Event
  | setState : AppState → Event
deriving DecidableEq, Repr, Inhabited

/-- A configuration of the embedded system: the controller's own fields,
the shared state behind `stateRef`, and the trace of events so far. -/
structure World where
  ctrl : Controller
  st : AppState
  events : List Event
deriving DecidableEq, Repr, Inhabited

namespace PivotRequester

/-- `PivotRequester.requestData` (lines 120-145), synchronous part: read
the current viewport, compute the fetch window via the Paging Policy,
record it in `pendingOffset`/`pendingLimit`, issue the fetch and record it
in `pendingDataRequest`.  The completion handler is `dataRequestHandler`
below. -/
def requestData (w : World) (queryView : QueryView) : World :=
  let appState := w.st
  let viewState := appState.viewState
  let fp := Paging.fetchParams viewState.viewportTop viewState.viewportBottom
  let offset := fp.1
  let limit := fp.2
  let ctrl' := { w.ctrl with
      pendingOffset := offset
      pendingLimit := limit
      pendingDataRequest := some (DataReq.fetch queryView offset limit) }
  { ctrl := ctrl', st := appState,
    events := w.events ++ [Event.issueFetch queryView offset limit] }

/-- The `dreq.then` continuation inside `requestData` (lines 133-143),
run when a fetch resolves with `dataView`: clear `pendingDataRequest`,
re-read the shared state, stop the loading timer, install the data view,
and write the state back. -/
def dataRequestHandler (w : World) (dataView : PagedDataView) : World :=
  let ctrl' := { w.ctrl with pendingDataRequest := none }
  let appState := w.st
  let nextSt := { appState with viewState :=
      { appState.viewState with
          loadingTimer := appState.viewState.loadingTimer.stop
          dataView := some dataView } }
  { ctrl := ctrl', st := nextSt, events := w.events ++ [Event.setState nextSt] }

/-- The `qreq.then` continuation inside `onStateChange` (lines 162-179),
run when a compile resolves with `queryView`: record it as
`currentQueryView`, re-read the shared state, clamp the viewport to the new
row count, write viewport and query view back, then call `requestData`. -/
def queryRequestHandler (w : World) (queryView : QueryView) : World :=
  let ctrl' := { w.ctrl with currentQueryView := some queryView }
  let appState := w.st
  let vs := appState.viewState
  let cv := Paging.clampViewport queryView.rowCount vs.viewportTop vs.viewportBottom
  let nextSt := { appState with viewState :=
      { vs with
          viewportTop := cv.1
          viewportBottom := cv.2
          queryView := some queryView } }
  let w' : World := { ctrl := ctrl', st := nextSt,
                      events := w.events ++ [Event.setState nextSt] }
  requestData w' queryView

/-- `PivotRequester.onStateChange` (lines 147-198), synchronous part.  If
the current view params are not reference-equal to `pendingViewParams`
(model: not equal, identity being carried by the `tag` field), record them,
issue a compile request, install the chained data promise, and start the
loading timer.  Otherwise, if a query view is resolved and the viewport is
not contained in the last issued fetch window, call `requestData`. -/
def onStateChange (w : World) : World :=
  let appState := w.st
  let viewState := appState.viewState
  let viewParams := viewState.viewParams
  if some viewParams ≠ w.ctrl.pendingViewParams then
    let ctrl₁ := { w.ctrl with pendingViewParams := some viewParams }
    let ctrl₂ := { ctrl₁ with
        pendingQueryRequest := some viewParams
        pendingDataRequest := some (DataReq.chained viewParams) }
    let nextAppState := { appState with viewState :=
        { viewState with loadingTimer := viewState.loadingTimer.run 200 } }
    { ctrl := ctrl₂, st := nextAppState,
      events := w.events ++ [Event.issueCompile viewParams,
                             Event.setState nextAppState] }
  else
    match w.ctrl.currentQueryView with
    | some qv =>
      if ¬ (Paging.contains w.ctrl.pendingOffset w.ctrl.pendingLimit
              viewState.viewportTop viewState.viewportBottom) then
        requestData w qv
      else w
    | none => w

end PivotRequester

/-! ### Analysis of the `mkDataView` loop -/

/-- The contents of the `parentIdStack` after the loop has processed the
given rows, starting at row index `i` with initial stack `s`. -/
def stackAfter : List RowMap → Nat → (Nat → Option Nat) → Nat → Option Nat
  | [], _, s => s
  | rowMap :: rest, i, s =>
    stackAfter rest (i + 1) (fun d => if d = rowMap.depth then some i else s d)

/-! ### Concrete sample inputs (used by the witnesses) -/

/-- A sample view definition: one pivot column `region`, the path
`["usa"]` expanded. -/
def sampleViewParams : ViewParams :=
  ⟨0, ["region"], none, false, [], [["usa"]]⟩

/-- The same view definition constructed a second time: structurally equal
to `sampleViewParams` except for its identity tag. -/
def sampleViewParamsCopy : ViewParams :=
  ⟨1, ["region"], none, false, [], [["usa"]]⟩

/-- A sample raw window: a root row (depth 0), a pivot row (depth 1, path
`usa`), and a leaf row (depth 2). -/
def sampleTable : TableRep :=
  ⟨⟨[("region", ⟨"text", "region"⟩)]⟩,
   [⟨0, [none], [], none, none, none, none⟩,
    ⟨1, [some "usa"], [], none, none, none, none⟩,
    ⟨2, [some "usa"], [], none, none, none, none⟩]⟩

/-- A sample window whose first row already has depth 2, with no depth-1
row before it. -/
def sampleTableOrphan : TableRep :=
  ⟨⟨[("region", ⟨"text", "region"⟩)]⟩,
   [⟨2, [some "usa"], [], none, none, none, none⟩]⟩

/-- The rows of `sampleTable` laid out in a row store, with the table
holding references to them. -/
def sampleHeap : List RowMap := sampleTable.rowData

def sampleTableH : TableRepH := ⟨sampleTable.schema, [0, 1, 2]⟩

def sampleQueryView : QueryView := ⟨7, 50⟩

/-- A sample world: view params already observed, a resolved query view,
last issued fetch window `[0, 30)`, viewport `[top, bottom)`. -/
def sampleWorld (top bottom : Int) : World :=
  ⟨⟨some sampleViewParams, some sampleViewParams, none, some sampleQueryView, 0, 30⟩,
   ⟨⟨sampleViewParams, top, bottom, ⟨false⟩, none, some sampleQueryView⟩, 0, 0, 0⟩,
   []⟩

/-- A sample world in which the store holds a newly constructed view
definition (`sampleViewParamsCopy`), structurally equal to the last
observed one but not reference-equal to it. -/
def sampleWorldNewParams : World :=
  ⟨⟨some sampleViewParams, some sampleViewParams, none, some sampleQueryView, 0, 30⟩,
   ⟨⟨sampleViewParamsCopy, 0, 20, ⟨false⟩, none, some sampleQueryView⟩, 0, 0, 0⟩,
   []⟩

theorem stepRow_snd (vp : ViewParams) (n : Nat) (r : RowMap) (i : Nat)
    (s : Nat → Option Nat) :
    (stepRow vp n r i s).2 = fun d => if d = r.depth then some i else s d := rfl

theorem mkRows_length (vp : ViewParams) (n : Nat) :
    ∀ (rows : List RowMap) (i : Nat) (s : Nat → Option Nat),
      (mkRows vp n rows i s).length = rows.length
  | [], _, _ => rfl
  | _ :: rest, i, s => by
    simp [mkRows, mkRows_length vp n rest]

/-- Row `j` of the loop's output is the step function applied to input row
`j`, at absolute index `i + j`, with the stack accumulated over the first
`j` rows. -/
theorem mkRows_getD (vp : ViewParams) (n : Nat) :
    ∀ (rows : List RowMap) (i : Nat) (s : Nat → Option Nat) (j : Nat),
      j < rows.length →
      (mkRows vp n rows i s).getD j default =
        (stepRow vp n (rows.getD j default) (i + j)
          (stackAfter (rows.take j) i s)).1
  | [], _, _, j, h => absurd h (by simp)
  | r :: rest, i, s, 0, _ => by
    simp [mkRows, stackAfter]
  | r :: rest, i, s, j + 1, h => by
    have h' : j < rest.length := by simpa using h
    have ih := mkRows_getD vp n rest (i + 1) (stepRow vp n r i s).2 j h'
    simp only [mkRows, List.getD_cons_succ]
    rw [ih]
    simp only [List.take_succ_cons, stackAfter, List.getD_cons_succ, stepRow_snd]
    have harith : i + 1 + j = i + (j + 1) := by omega
    rw [harith]

theorem stackAfter_eq_of_forall_ne :
    ∀ (rows : List RowMap) (i : Nat) (s : Nat → Option Nat) (d : Nat),
      (∀ r ∈ rows, r.depth ≠ d) → stackAfter rows i s d = s d
  | [], _, _, _, _ => rfl
  | r :: rest, i, s, d, h => by
    have hr : d ≠ r.depth := fun hd => h r (List.mem_cons_self r rest) hd.symm
    have ih := stackAfter_eq_of_forall_ne rest (i + 1)
      (fun d' => if d' = r.depth then some i else s d') d
      (fun r' hr' => h r' (List.mem_cons_of_mem r hr'))
    simp only [stackAfter] at ih ⊢
    rw [ih]
    simp [hr]

theorem stackAfter_append :
    ∀ (xs ys : List RowMap) (i : Nat) (s : Nat → Option Nat),
      stackAfter (xs ++ ys) i s = stackAfter ys (i + xs.length) (stackAfter xs i s)
  | [], ys, i, s => by simp [stackAfter]
  | x :: xs, ys, i, s => by
    simp only [List.cons_append, stackAfter, List.length_cons, List.append_eq]
    rw [stackAfter_append xs ys (i + 1)]
    have harith : i + 1 + xs.length = i + (xs.length + 1) := by omega
    rw [harith]

/-- If no row among the first `j` has depth `d`, position `d` of the stack
still holds its initial value after those `j` rows. -/
theorem stackAfter_take_none (rows : List RowMap) (i : Nat)
    (s : Nat → Option Nat) (j d : Nat) (hj : j ≤ rows.length)
    (hnone : ∀ m, m < j → (rows.getD m default).depth ≠ d) :
    stackAfter (rows.take j) i s d = s d := by
  apply stackAfter_eq_of_forall_ne
  intro r hr
  rw [List.mem_iff_getElem] at hr
  obtain ⟨m, hm, hr⟩ := hr
  have hmj : m < j := by
    simp only [List.length_take] at hm
    omega
  have hml : m < rows.length := lt_of_lt_of_le hmj hj
  rw [List.getElem_take] at hr
  rw [← hr, ← List.getD_eq_getElem rows default hml]
  exact hnone m hmj

/-- If row `k` is the nearest row before position `j` with depth `d`,
position `d` of the stack holds `i + k` after the first `j` rows. -/
theorem stackAfter_take_nearest (rows : List RowMap) (i : Nat)
    (s : Nat → Option Nat) (j k d : Nat) (hk : k < j) (hj : j ≤ rows.length)
    (hdk : (rows.getD k default).depth = d)
    (hnear : ∀ m, k < m → m < j → (rows.getD m default).depth ≠ d) :
    stackAfter (rows.take j) i s d = some (i + k) := by
  have hkr : k < rows.length := lt_of_lt_of_le hk hj
  have hmin : min (k + 1) j = k + 1 := min_eq_left (by omega)
  have hsplit : rows.take j = rows.take (k + 1) ++ (rows.take j).drop (k + 1) := by
    conv_lhs => rw [← List.take_append_drop (k + 1) (rows.take j)]
    rw [List.take_take, hmin]
  rw [hsplit, stackAfter_append]
  have hdrop : ∀ r ∈ (rows.take j).drop (k + 1), r.depth ≠ d := by
    intro r hr
    rw [List.mem_iff_getElem] at hr
    obtain ⟨m, hm, hr⟩ := hr
    have hmlen : k + 1 + m < j := by
      simp only [List.length_drop, List.length_take] at hm
      omega
    have hmr : k + 1 + m < rows.length := lt_of_lt_of_le hmlen hj
    rw [List.getElem_drop, List.getElem_take] at hr
    rw [← hr, ← List.getD_eq_getElem rows default hmr]
    exact hnear (k + 1 + m) (by omega) hmlen
  rw [stackAfter_eq_of_forall_ne _ _ _ _ hdrop]
  rw [List.take_succ, List.getElem?_eq_getElem hkr, stackAfter_append]
  have hlen : (rows.take k).length = k := by
    simp [List.length_take, min_eq_left (le_of_lt hkr)]
  rw [hlen]
  have hd : d = rows[k].depth := by
    rw [← List.getD_eq_getElem rows default hkr]
    exact hdk.symm
  simp [stackAfter, hd]

/-! ### Correspondence between the heap-passing and value-level loops -/

theorem mkRows_cons (vp : ViewParams) (n : Nat) (r : RowMap)
    (rest : List RowMap) (i : Nat) (s : Nat → Option Nat) :
    mkRows vp n (r :: rest) i s =
      (stepRow vp n r i s).1 :: mkRows vp n rest (i + 1) (stepRow vp n r i s).2 := rfl

theorem mkRowsH_cons (vp : ViewParams) (n : Nat) (ref : Nat)
    (rest : List Nat) (i : Nat) (s : Nat → Option Nat) (heap : List RowMap) :
    mkRowsH vp n (ref :: rest) i s heap =
      ((mkRowsH vp n rest (i + 1) (stepRow vp n (heap.getD ref default) i s).2
          (heap.set ref (stepRow vp n (heap.getD ref default) i s).1)).1,
       ref :: (mkRowsH vp n rest (i + 1) (stepRow vp n (heap.getD ref default) i s).2
          (heap.set ref (stepRow vp n (heap.getD ref default) i s).1)).2) := rfl

/-- The heap-passing loop returns the very references it was given, leaves
every unreferenced store cell alone, preserves the store size, and leaves
behind each reference exactly the row the value-level loop produces from
the referenced input rows. -/
theorem mkRowsH_spec (vp : ViewParams) (n : Nat) :
    ∀ (refs : List Nat) (i : Nat) (s : Nat → Option Nat) (heap : List RowMap),
      refs.Nodup → (∀ r ∈ refs, r < heap.length) →
      (mkRowsH vp n refs i s heap).2 = refs ∧
      (mkRowsH vp n refs i s heap).1.length = heap.length ∧
      (∀ a, a ∉ refs →
        (mkRowsH vp n refs i s heap).1.getD a default = heap.getD a default) ∧
      (∀ j, j < refs.length →
        (mkRowsH vp n refs i s heap).1.getD (refs.getD j 0) default =
          (mkRows vp n (refs.map (fun r => heap.getD r default)) i s).getD j default)
  | [], _, _, heap, _, _ =>
    ⟨rfl, rfl, fun _ _ => rfl, fun j hj => absurd hj (by simp)⟩
  | ref :: rest, i, s, heap, hnd, hb => by
    obtain ⟨hnotin, hndrest⟩ := List.nodup_cons.mp hnd
    have hrefl : ref < heap.length := hb ref (List.mem_cons_self ref rest)
    have hb' : ∀ r ∈ rest,
        r < (heap.set ref (stepRow vp n (heap.getD ref default) i s).1).length := by
      rw [List.length_set]
      exact fun r hr => hb r (List.mem_cons_of_mem ref hr)
    obtain ⟨IH1, IH2, IH3, IH4⟩ :=
      mkRowsH_spec vp n rest (i + 1) (stepRow vp n (heap.getD ref default) i s).2
        (heap.set ref (stepRow vp n (heap.getD ref default) i s).1) hndrest hb'
    rw [mkRowsH_cons]
    refine ⟨by rw [IH1], by rw [IH2, List.length_set], ?_, ?_⟩
    · intro a ha
      have ha1 : a ≠ ref := fun h => ha (h ▸ List.mem_cons_self ref rest)
      have ha2 : a ∉ rest := fun h => ha (List.mem_cons_of_mem ref h)
      rw [IH3 a ha2]
      simp [List.getD, List.getElem?_set_ne (Ne.symm ha1)]
    · intro j hj
      cases j with
      | zero =>
        rw [List.getD_cons_zero, IH3 ref hnotin, List.map_cons, mkRows_cons,
          List.getD_cons_zero]
        simp [List.getD, List.getElem?_set_self, hrefl]
      | succ j' =>
        have hj' : j' < rest.length := by simpa using hj
        rw [List.getD_cons_succ, IH4 j' hj']
        have hmap : rest.map (fun r =>
            (heap.set ref (stepRow vp n (heap.getD ref default) i s).1).getD r default) =
            rest.map (fun r => heap.getD r default) := by
          apply List.map_congr_left
          intro r hr
          have hne : r ≠ ref := fun h => hnotin (h ▸ hr)
          simp [List.getD, List.getElem?_set_ne (Ne.symm hne)]
        rw [hmap, List.map_cons, mkRows_cons, List.getD_cons_succ]

/-! ### Claim theorems about `mkDataView` -/

/-- Claim C6: for every row in a fetched window, the leaf flag `_isLeaf` produced
by `mkDataView` is true iff the row's depth strictly exceeds the number of
pivot columns of the view definition. -/
theorem mkDataView_isLeaf (vp : ViewParams) (rowCount : Nat) (offset : Int)
    (tableData : TableRep) (j : Nat) (hj : j < tableData.rowData.length) :
    ((mkDataView vp rowCount offset tableData).rowData.getD j default).isLeaf
        = some true ↔
      (tableData.rowData.getD j default).depth > vp.vpivots.length := by
  show ((mkRows vp vp.vpivots.length tableData.rowData 0
      (fun _ => none)).getD j default).isLeaf = some true ↔ _
  rw [mkRows_getD vp vp.vpivots.length tableData.rowData 0 (fun _ => none) j hj]
  simp [stepRow]

/-- Witness for C6: in the sample window the depth-2 row is a leaf (one
pivot level), the depth-1 row is not. -/
theorem mkDataView_isLeaf_witness :
    ((mkDataView sampleViewParams 50 0 sampleTable).rowData.getD 2 default).isLeaf
        = some true ∧
    ¬ ((mkDataView sampleViewParams 50 0 sampleTable).rowData.getD 1 default).isLeaf
        = some true :=
  ⟨(mkDataView_isLeaf sampleViewParams 50 0 sampleTable 2 (by decide)).mpr (by decide),
   fun h => absurd ((mkDataView_isLeaf sampleViewParams 50 0 sampleTable 1
      (by decide)).mp h) (by decide)⟩

/-- Claim C5: for every row in a fetched window, the open flag `_isOpen` produced
by `mkDataView` is true iff the row's reconstructed path (`getPath`: the
ordered list of present, non-empty path segments at depths
`0..(pivot-count - 1)`) is a member of the view definition's expanded-path
set. -/
theorem mkDataView_isOpen (vp : ViewParams) (rowCount : Nat) (offset : Int)
    (tableData : TableRep) (j : Nat) (hj : j < tableData.rowData.length) :
    ((mkDataView vp rowCount offset tableData).rowData.getD j default).isOpen
        = some true ↔
      getPath (tableData.rowData.getD j default) vp.vpivots.length
        ∈ vp.openPaths := by
  show ((mkRows vp vp.vpivots.length tableData.rowData 0
      (fun _ => none)).getD j default).isOpen = some true ↔ _
  rw [mkRows_getD vp vp.vpivots.length tableData.rowData 0 (fun _ => none) j hj]
  simp [stepRow, isOpenPaths]

/-- Witness for C5: the sample depth-1 row has path `["usa"]`, which is in
the expanded set, so its open flag is set; the root row's path `[]` is not,
so its open flag is clear. -/
theorem mkDataView_isOpen_witness :
    ((mkDataView sampleViewParams 50 0 sampleTable).rowData.getD 1 default).isOpen
        = some true ∧
    ¬ ((mkDataView sampleViewParams 50 0 sampleTable).rowData.getD 0 default).isOpen
        = some true :=
  ⟨(mkDataView_isOpen sampleViewParams 50 0 sampleTable 1 (by decide)).mpr (by decide),
   fun h => absurd ((mkDataView_isOpen sampleViewParams 50 0 sampleTable 0
      (by decide)).mp h) (by decide)⟩

/-- Claim C2: in every window produced by `mkDataView`, a row at depth 0 gets
`_parentId = null`; a row at depth `d > 0` whose nearest preceding row of
depth `d - 1` is at position `k` gets `_parentId` equal to that row's row
id `k` (row ids being 0-based window positions). -/
theorem mkDataView_parentId (vp : ViewParams) (rowCount : Nat) (offset : Int)
    (tableData : TableRep) (j : Nat) (hj : j < tableData.rowData.length) :
    ((tableData.rowData.getD j default).depth = 0 →
      ((mkDataView vp rowCount offset tableData).rowData.getD j default).parentId
        = some PVal.pnull) ∧
    (∀ k, k < j → (tableData.rowData.getD j default).depth > 0 →
      (tableData.rowData.getD k default).depth
          = (tableData.rowData.getD j default).depth - 1 →
      (∀ m, k < m → m < j →
        (tableData.rowData.getD m default).depth
          ≠ (tableData.rowData.getD j default).depth - 1) →
      ((mkDataView vp rowCount offset tableData).rowData.getD j default).parentId
          = some (PVal.pid k) ∧
        ((mkDataView vp rowCount offset tableData).rowData.getD k default).id
          = some k) := by
  constructor
  · intro h0
    show ((mkRows vp vp.vpivots.length tableData.rowData 0
        (fun _ => none)).getD j default).parentId = some PVal.pnull
    rw [mkRows_getD vp vp.vpivots.length tableData.rowData 0 (fun _ => none) j hj]
    revert h0
    generalize tableData.rowData.getD j default = r
    intro h0
    simp [stepRow, h0]
  · intro k hk hd hdk hnear
    have hkj : k < tableData.rowData.length := lt_trans hk hj
    constructor
    · have hstack := stackAfter_take_nearest tableData.rowData 0 (fun _ => none)
        j k ((tableData.rowData.getD j default).depth - 1) hk (le_of_lt hj) hdk hnear
      show ((mkRows vp vp.vpivots.length tableData.rowData 0
          (fun _ => none)).getD j default).parentId = some (PVal.pid k)
      rw [mkRows_getD vp vp.vpivots.length tableData.rowData 0 (fun _ => none) j hj]
      clear hdk hnear
      revert hd hstack
      generalize tableData.rowData.getD j default = r
      intro hd hstack
      have hne : r.depth - 1 ≠ r.depth := by omega
      simp [stepRow, hd, hne, hstack]
    · show ((mkRows vp vp.vpivots.length tableData.rowData 0
          (fun _ => none)).getD k default).id = some k
      rw [mkRows_getD vp vp.vpivots.length tableData.rowData 0 (fun _ => none) k hkj]
      simp [stepRow]

/-- Witness for C2: in the sample window, the root row gets `null`, the
depth-1 row points at the root (id 0), and the depth-2 row points at the
depth-1 row (id 1). -/
theorem mkDataView_parentId_witness :
    ((mkDataView sampleViewParams 50 0 sampleTable).rowData.getD 0 default).parentId
        = some PVal.pnull ∧
    ((mkDataView sampleViewParams 50 0 sampleTable).rowData.getD 1 default).parentId
        = some (PVal.pid 0) ∧
    ((mkDataView sampleViewParams 50 0 sampleTable).rowData.getD 2 default).parentId
        = some (PVal.pid 1) := by
  refine ⟨(mkDataView_parentId sampleViewParams 50 0 sampleTable 0 (by decide)).1
      (by decide), ?_, ?_⟩
  · exact ((mkDataView_parentId sampleViewParams 50 0 sampleTable 1 (by decide)).2
      0 (by decide) (by decide) (by decide)
      (fun m hm1 hm2 => by exfalso; omega)).1
  · exact ((mkDataView_parentId sampleViewParams 50 0 sampleTable 2 (by decide)).2
      1 (by decide) (by decide) (by decide)
      (fun m hm1 hm2 => by exfalso; omega)).1

/-- Claim C8: a row at depth `d > 0` with no preceding row of depth `d - 1` in
the same window gets an `undefined` parent id (the out-of-range read of the
per-depth last-seen-id stack), which is not the id of any row. -/
theorem mkDataView_parentId_orphan (vp : ViewParams) (rowCount : Nat)
    (offset : Int) (tableData : TableRep) (j : Nat)
    (hj : j < tableData.rowData.length)
    (hd : (tableData.rowData.getD j default).depth > 0)
    (hnone : ∀ m, m < j →
      (tableData.rowData.getD m default).depth
        ≠ (tableData.rowData.getD j default).depth - 1) :
    ((mkDataView vp rowCount offset tableData).rowData.getD j default).parentId
        = some PVal.pundef ∧
    ∀ p : Nat, PVal.pundef ≠ PVal.pid p := by
  refine ⟨?_, fun p h => PVal.noConfusion h⟩
  have hstack := stackAfter_take_none tableData.rowData 0 (fun _ => none)
    j ((tableData.rowData.getD j default).depth - 1) (le_of_lt hj) hnone
  show ((mkRows vp vp.vpivots.length tableData.rowData 0
      (fun _ => none)).getD j default).parentId = some PVal.pundef
  rw [mkRows_getD vp vp.vpivots.length tableData.rowData 0 (fun _ => none) j hj]
  clear hnone
  revert hd hstack
  generalize tableData.rowData.getD j default = r
  intro hd hstack
  have hne : r.depth - 1 ≠ r.depth := by omega
  simp [stepRow, hd, hne, hstack]

/-- Witness for C8: the one-row window whose row has depth 2 yields an
`undefined` parent id. -/
theorem mkDataView_parentId_orphan_witness :
    ((mkDataView sampleViewParams 50 0 sampleTableOrphan).rowData.getD 0
        default).parentId = some PVal.pundef :=
  (mkDataView_parentId_orphan sampleViewParams 50 0 sampleTableOrphan 0
    (by decide) (by decide) (fun m hm => by exfalso; omega)).1

/-- Claim C10: `mkDataView` preserves the input window: one output row per input
row in the same order, each output row carrying its input row's original
fields (`_depth`, the path fields, the data cells) unchanged, and the
returned view carrying the given total row count and window offset. -/
theorem mkDataView_window (vp : ViewParams) (rowCount : Nat) (offset : Int)
    (tableData : TableRep) :
    (mkDataView vp rowCount offset tableData).rowData.length
        = tableData.rowData.length ∧
    (mkDataView vp rowCount offset tableData).rowCount = rowCount ∧
    (mkDataView vp rowCount offset tableData).offset = offset ∧
    ∀ j, j < tableData.rowData.length →
      ((mkDataView vp rowCount offset tableData).rowData.getD j default).depth
          = (tableData.rowData.getD j default).depth ∧
      ((mkDataView vp rowCount offset tableData).rowData.getD j default).pathFields
          = (tableData.rowData.getD j default).pathFields ∧
      ((mkDataView vp rowCount offset tableData).rowData.getD j default).cells
          = (tableData.rowData.getD j default).cells := by
  refine ⟨?_, rfl, rfl, ?_⟩
  · show (mkRows vp vp.vpivots.length tableData.rowData 0
        (fun _ => none)).length = tableData.rowData.length
    exact mkRows_length vp vp.vpivots.length tableData.rowData 0 (fun _ => none)
  · intro j hj
    have h := mkRows_getD vp vp.vpivots.length tableData.rowData 0 (fun _ => none) j hj
    refine ⟨?_, ?_, ?_⟩
    · show ((mkRows vp vp.vpivots.length tableData.rowData 0
          (fun _ => none)).getD j default).depth = _
      rw [h]; simp [stepRow]
    · show ((mkRows vp vp.vpivots.length tableData.rowData 0
          (fun _ => none)).getD j default).pathFields = _
      rw [h]; simp [stepRow]
    · show ((mkRows vp vp.vpivots.length tableData.rowData 0
          (fun _ => none)).getD j default).cells = _
      rw [h]; simp [stepRow]

/-- Witness for C10 at the sample window: three rows in, three rows out,
row count and offset carried through, row 1 keeps its depth and path. -/
theorem mkDataView_window_witness :
    (mkDataView sampleViewParams 50 0 sampleTable).rowData.length = 3 ∧
    (mkDataView sampleViewParams 50 0 sampleTable).rowCount = 50 ∧
    (mkDataView sampleViewParams 50 0 sampleTable).offset = 0 ∧
    ((mkDataView sampleViewParams 50 0 sampleTable).rowData.getD 1 default).depth
        = 1 := by
  obtain ⟨h1, h2, h3, h4⟩ := mkDataView_window sampleViewParams 50 0 sampleTable
  exact ⟨by rw [h1]; decide, h2, h3, by rw [(h4 1 (by decide)).1]; decide⟩

/-- Claim C9: the heap-passing `mkDataView` mutates the referenced row objects in
place: the returned view's row array holds the very references it was
given, in order; after the call each referenced store cell holds its former
row augmented exactly as the value-level `mkDataView` does; and (the rows
being raw, with no `_id` yet) each referenced cell's contents differ from
before, so the input table's rows are not left unchanged. -/
theorem mkDataViewH_inPlace (vp : ViewParams) (rowCount : Nat) (offset : Int)
    (tableData : TableRepH) (heap : List RowMap)
    (hnd : tableData.rowData.Nodup)
    (hb : ∀ r ∈ tableData.rowData, r < heap.length)
    (hfresh : ∀ r ∈ tableData.rowData, (heap.getD r default).id = none) :
    (mkDataViewH vp rowCount offset tableData heap).2.rowData
        = tableData.rowData ∧
    ∀ j, j < tableData.rowData.length →
      ((mkDataViewH vp rowCount offset tableData heap).1.getD
          (tableData.rowData.getD j 0) default =
        (mkDataView vp rowCount offset
          ⟨tableData.schema,
           tableData.rowData.map (fun r => heap.getD r default)⟩).rowData.getD
          j default) ∧
      (mkDataViewH vp rowCount offset tableData heap).1.getD
          (tableData.rowData.getD j 0) default ≠
        heap.getD (tableData.rowData.getD j 0) default := by
  obtain ⟨H1, H2, H3, H4⟩ := mkRowsH_spec vp vp.vpivots.length
    tableData.rowData 0 (fun _ => none) heap hnd hb
  refine ⟨H1, ?_⟩
  intro j hj
  have hmem : tableData.rowData.getD j 0 ∈ tableData.rowData := by
    rw [List.getD_eq_getElem tableData.rowData 0 hj]
    exact List.getElem_mem hj
  have heq : (mkDataViewH vp rowCount offset tableData heap).1.getD
      (tableData.rowData.getD j 0) default =
      (mkRows vp vp.vpivots.length
        (tableData.rowData.map (fun r => heap.getD r default)) 0
        (fun _ => none)).getD j default := H4 j hj
  refine ⟨heq, ?_⟩
  intro hsame
  have hjm : j < (tableData.rowData.map (fun r => heap.getD r default)).length := by
    rw [List.length_map]
    exact hj
  have hid : ((mkRows vp vp.vpivots.length
      (tableData.rowData.map (fun r => heap.getD r default)) 0
      (fun _ => none)).getD j default).id = some j := by
    rw [mkRows_getD vp vp.vpivots.length _ 0 (fun _ => none) j hjm]
    simp [stepRow]
  rw [heq] at hsame
  rw [hsame] at hid
  rw [hfresh (tableData.rowData.getD j 0) hmem] at hid
  exact Option.noConfusion hid

/-- Witness for C9 at the sample store: the view returns references
`[0, 1, 2]` unchanged, and cell 1 of the store was rewritten. -/
theorem mkDataViewH_inPlace_witness :
    (mkDataViewH sampleViewParams 50 0 sampleTableH sampleHeap).2.rowData
        = [0, 1, 2] ∧
    (mkDataViewH sampleViewParams 50 0 sampleTableH sampleHeap).1.getD
        (sampleTableH.rowData.getD 1 0) default ≠
      sampleHeap.getD (sampleTableH.rowData.getD 1 0) default := by
  obtain ⟨H1, H2⟩ := mkDataViewH_inPlace sampleViewParams 50 0 sampleTableH
    sampleHeap (by decide) (by decide) (by decide)
  exact ⟨H1, (H2 1 (by decide)).2⟩

/-! ### Claim theorems about the reconciliation controller -/

/-- The spec-modelled `Paging.clampViewport` returns a viewport inside
`[0, rowCount]`. -/
theorem clampViewport_bounds (rowCount : Nat) (top bottom : Int) :
    0 ≤ (Paging.clampViewport rowCount top bottom).1 ∧
    (Paging.clampViewport rowCount top bottom).1
        ≤ (Paging.clampViewport rowCount top bottom).2 ∧
    (Paging.clampViewport rowCount top bottom).2 ≤ (rowCount : Int) := by
  simp only [Paging.clampViewport]
  refine ⟨?_, ?_, ?_⟩ <;> omega

/-- Claim C1: the completion handler of a fetch issued by `requestData` stops the
loading indicator and writes that fetch's data view into shared state
unconditionally — for any controller/state configuration, including one in
which a newer fetch has been issued meanwhile; in particular a handler that
runs later always overwrites the data view written by a handler that ran
earlier. -/
theorem dataRequestHandler_unconditional (w : World) (dataView : PagedDataView) :
    (PivotRequester.dataRequestHandler w dataView).st.viewState.dataView
        = some dataView ∧
    (PivotRequester.dataRequestHandler w dataView).st.viewState.loadingTimer.running
        = false ∧
    (∀ dataViewLate,
      (PivotRequester.dataRequestHandler
          (PivotRequester.dataRequestHandler w dataView)
          dataViewLate).st.viewState.dataView = some dataViewLate) :=
  ⟨rfl, rfl, fun _ => rfl⟩

/-- Claim C3: on a reconciliation pass with unchanged (reference-equal) view
params, if the viewport is contained in the most recently issued fetch
window then nothing is issued and the request-tracking fields are left
unchanged; conversely, if a query view is resolved and the viewport is not
contained, exactly one fetch is issued via `requestData`. -/
theorem onStateChange_containment (w : World)
    (href : w.ctrl.pendingViewParams = some w.st.viewState.viewParams) :
    (Paging.contains w.ctrl.pendingOffset w.ctrl.pendingLimit
        w.st.viewState.viewportTop w.st.viewState.viewportBottom = true →
      (PivotRequester.onStateChange w).events = w.events ∧
      (PivotRequester.onStateChange w).ctrl.pendingOffset = w.ctrl.pendingOffset ∧
      (PivotRequester.onStateChange w).ctrl.pendingLimit = w.ctrl.pendingLimit ∧
      (PivotRequester.onStateChange w).ctrl.pendingDataRequest
          = w.ctrl.pendingDataRequest) ∧
    (∀ qv, w.ctrl.currentQueryView = some qv →
      Paging.contains w.ctrl.pendingOffset w.ctrl.pendingLimit
        w.st.viewState.viewportTop w.st.viewState.viewportBottom = false →
      (PivotRequester.onStateChange w).events
          = w.events ++ [Event.issueFetch qv
              (Paging.fetchParams w.st.viewState.viewportTop
                w.st.viewState.viewportBottom).1
              (Paging.fetchParams w.st.viewState.viewportTop
                w.st.viewState.viewportBottom).2] ∧
      (PivotRequester.onStateChange w).ctrl.pendingDataRequest
          = some (DataReq.fetch qv
              (Paging.fetchParams w.st.viewState.viewportTop
                w.st.viewState.viewportBottom).1
              (Paging.fetchParams w.st.viewState.viewportTop
                w.st.viewState.viewportBottom).2)) := by
  have hcond : ¬ (some w.st.viewState.viewParams ≠ w.ctrl.pendingViewParams) := by
    rw [href]
    exact fun h => h rfl
  constructor
  · intro hcont
    cases hqv : w.ctrl.currentQueryView with
    | none =>
      have hw : PivotRequester.onStateChange w = w := by
        simp only [PivotRequester.onStateChange]
        rw [if_neg hcond, hqv]
      rw [hw]
      exact ⟨rfl, rfl, rfl, rfl⟩
    | some qv =>
      have hw : PivotRequester.onStateChange w = w := by
        simp only [PivotRequester.onStateChange]
        rw [if_neg hcond, hqv]
        simp [hcont]
      rw [hw]
      exact ⟨rfl, rfl, rfl, rfl⟩
  · intro qv hqv hcont
    have hw : PivotRequester.onStateChange w = PivotRequester.requestData w qv := by
      simp only [PivotRequester.onStateChange]
      rw [if_neg hcond, hqv]
      simp [hcont]
    rw [hw]
    exact ⟨rfl, rfl⟩

/-- Witness for C3: with window `[0, 30)` issued, viewport `[0, 20)` is
contained and triggers nothing; viewport `[40, 60)` is not contained and
triggers exactly one fetch. -/
theorem onStateChange_containment_witness :
    (PivotRequester.onStateChange (sampleWorld 0 20)).events = [] ∧
    (PivotRequester.onStateChange (sampleWorld 40 60)).events
        = [Event.issueFetch sampleQueryView
            (Paging.fetchParams 40 60).1 (Paging.fetchParams 40 60).2] := by
  constructor
  · exact ((onStateChange_containment (sampleWorld 0 20) rfl).1 (by decide)).1
  · exact ((onStateChange_containment (sampleWorld 40 60) rfl).2
      sampleQueryView rfl (by decide)).1

/-- Claim C4: when a query view resolves with row count `N`, the compile
continuation writes a viewport clamped into `0 ≤ top ≤ bottom ≤ N` into
shared state, and the trace shows the state write happening before the
fetch for that handle is issued, the fetch window being computed from the
already-clamped viewport. -/
theorem queryRequestHandler_clamps (w : World) (queryView : QueryView) :
    0 ≤ (PivotRequester.queryRequestHandler w queryView).st.viewState.viewportTop ∧
    (PivotRequester.queryRequestHandler w queryView).st.viewState.viewportTop
        ≤ (PivotRequester.queryRequestHandler w queryView).st.viewState.viewportBottom ∧
    (PivotRequester.queryRequestHandler w queryView).st.viewState.viewportBottom
        ≤ (queryView.rowCount : Int) ∧
    (PivotRequester.queryRequestHandler w queryView).events
        = w.events ++
          [Event.setState (PivotRequester.queryRequestHandler w queryView).st,
           Event.issueFetch queryView
             (Paging.fetchParams
               (PivotRequester.queryRequestHandler w queryView).st.viewState.viewportTop
               (PivotRequester.queryRequestHandler w queryView).st.viewState.viewportBottom).1
             (Paging.fetchParams
               (PivotRequester.queryRequestHandler w queryView).st.viewState.viewportTop
               (PivotRequester.queryRequestHandler w queryView).st.viewState.viewportBottom).2] ∧
    (PivotRequester.queryRequestHandler w queryView).st.viewState.queryView
        = some queryView := by
  obtain ⟨h1, h2, h3⟩ := clampViewport_bounds queryView.rowCount
    w.st.viewState.viewportTop w.st.viewState.viewportBottom
  refine ⟨h1, h2, h3, ?_, rfl⟩
  simp [PivotRequester.queryRequestHandler, PivotRequester.requestData]

/-- Claim C7: `onStateChange` starts the compile pipeline iff the current view
params are not reference-equal to the last observed ones; when it does, the
view params recorded in `pendingViewParams` and the view params the compile
request is issued for are the same (current) instance, the recording
happening before the issue in program order; when it does not (reference
equality, which distinguishes structurally-equal but separately constructed
instances), no compile is issued. -/
theorem onStateChange_compile (w : World) :
    (some w.st.viewState.viewParams ≠ w.ctrl.pendingViewParams →
      (PivotRequester.onStateChange w).ctrl.pendingViewParams
          = some w.st.viewState.viewParams ∧
      (PivotRequester.onStateChange w).ctrl.pendingQueryRequest
          = some w.st.viewState.viewParams ∧
      (PivotRequester.onStateChange w).events
          = w.events ++ [Event.issueCompile w.st.viewState.viewParams,
              Event.setState (PivotRequester.onStateChange w).st]) ∧
    (some w.st.viewState.viewParams = w.ctrl.pendingViewParams →
      ∃ tail, (PivotRequester.onStateChange w).events = w.events ++ tail ∧
        ∀ e ∈ tail, ∀ vpNew, e ≠ Event.issueCompile vpNew) := by
  constructor
  · intro hne
    simp only [PivotRequester.onStateChange]
    rw [if_pos hne]
    exact ⟨rfl, rfl, rfl⟩
  · intro heq
    have hcond : ¬ (some w.st.viewState.viewParams ≠ w.ctrl.pendingViewParams) :=
      fun h => h heq
    cases hqv : w.ctrl.currentQueryView with
    | none =>
      refine ⟨[], ?_, by simp⟩
      simp only [PivotRequester.onStateChange]
      rw [if_neg hcond, hqv]
      simp
    | some qv =>
      cases hcont : Paging.contains w.ctrl.pendingOffset w.ctrl.pendingLimit
          w.st.viewState.viewportTop w.st.viewState.viewportBottom with
      | true =>
        refine ⟨[], ?_, by simp⟩
        simp only [PivotRequester.onStateChange]
        rw [if_neg hcond, hqv]
        simp [hcont]
      | false =>
        refine ⟨[Event.issueFetch qv
            (Paging.fetchParams w.st.viewState.viewportTop
              w.st.viewState.viewportBottom).1
            (Paging.fetchParams w.st.viewState.viewportTop
              w.st.viewState.viewportBottom).2], ?_, by simp⟩
        simp only [PivotRequester.onStateChange]
        rw [if_neg hcond, hqv]
        simp [hcont, PivotRequester.requestData]

/-- Witness for C7: a structurally-equal but separately constructed view
definition (different identity tag) triggers the compile branch: it is
recorded and a compile for it is issued; a reference-equal one (with a
contained viewport) triggers nothing. -/
theorem onStateChange_compile_witness :
    (PivotRequester.onStateChange sampleWorldNewParams).ctrl.pendingViewParams
        = some sampleViewParamsCopy ∧
    (PivotRequester.onStateChange sampleWorldNewParams).ctrl.pendingQueryRequest
        = some sampleViewParamsCopy ∧
    (PivotRequester.onStateChange sampleWorldNewParams).events
        = [Event.issueCompile sampleViewParamsCopy,
           Event.setState (PivotRequester.onStateChange sampleWorldNewParams).st] :=
  (onStateChange_compile sampleWorldNewParams).1 (by decide)
